import Mathlib

/-!
Shallow embedding of `src/capnp.rs` from the capnls repository: the
diagnostic-generation path (`diags`) and the per-line diagnostic parser
(`parse_diag`).  Rust strings are modelled as `List Char`; `u32` values as
`Nat` with an explicit `< 2^32` bound in the integer parser; Rust's
`saturating_sub(1)` is modelled by truncated `Nat` subtraction.  Panics
(from `.unwrap()` on integer parsing) are modelled explicitly by a
`ParseOut.panicked` constructor.
-/

namespace Capnls

/-- Rust `&str` / `String`, modelled as a list of characters. -/
abbrev Str := List Char

/-- Models Rust `str::split_once(c)`: split at the first occurrence of `c`,
returning the parts before and after it, or `none` when `c` does not occur. -/
def splitOnce (c : Char) : Str → Option (Str × Str)
  | [] => none
  | x :: xs =>
    if x = c then some ([], xs)
    else (splitOnce c xs).map (fun p => (x :: p.1, p.2))

/-- Models Rust `str::strip_prefix(p)`: remove the leading occurrence of `p`,
or `none` when `s` does not start with `p`. -/
def stripPfx : Str → Str → Option Str
  | [], s => some s
  | _ :: _, [] => none
  | p :: ps, x :: xs => if x = p then stripPfx ps xs else none

/-- Leading-whitespace trim (the front half of Rust `str::trim`). -/
def trimStart (s : Str) : Str := s.dropWhile Char.isWhitespace

/-- Trailing-whitespace trim (the back half of Rust `str::trim`). -/
def trimEnd (s : Str) : Str := (s.reverse.dropWhile Char.isWhitespace).reverse

/-- Models Rust `str::trim`: whitespace removed from both ends. -/
def trim (s : Str) : Str := trimEnd (trimStart s)

/-- Models Rust `str::trim_end_matches(".")`: since the pattern is the single
character `.`, this repeatedly strips trailing periods, i.e. removes every
trailing `.` character. -/
def trimEndDots (s : Str) : Str := (s.reverse.dropWhile (fun c => c = '.')).reverse

/-- Models Rust `str::ends_with(suffix)`. -/
def endsWith (suffix s : Str) : Bool := suffix.isSuffixOf s

/-- Decimal value of a digit string (most significant first). -/
def digitsVal (s : Str) : Nat := s.foldl (fun a c => a * 10 + (c.toNat - 48)) 0

/-- Remove one optional leading `+` sign (Rust's unsigned `FromStr`
accepts it). -/
def stripPlus : Str → Str
  | [] => []
  | c :: r => if c = '+' then r else c :: r

/-- Models Rust `str::parse::<u32>()` (as an `Option`; the source calls
`.unwrap()` on it, modelled at the call sites).  Rust's unsigned integer
`FromStr` accepts an optional leading `+`, then one or more ASCII digits,
and fails on overflow past `u32::MAX`. -/
def parseU32 (s : Str) : Option Nat :=
  let ds := stripPlus s
  if ds.isEmpty then none
  else if ds.all Char.isDigit then
    let v := digitsVal ds
    if v < 4294967296 then some v else none
  else none

/-- Models `lsp_types::Position` (fields `line`, `character`, both `u32`). -/
structure Position where
  line : Nat
  character : Nat
deriving DecidableEq

/-- Models `lsp_types::Range` (`end` is a Lean keyword, renamed `end_`). -/
structure Range where
  start : Position
  end_ : Position
deriving DecidableEq

/-- Models `lsp_types::DiagnosticSeverity` (all four protocol constants,
though the parser only ever produces `ERROR` and `HINT`). -/
inductive DiagnosticSeverity where
  | ERROR
  | WARNING
  | INFORMATION
  | HINT
deriving DecidableEq

/-- Models `lsp_types::Diagnostic`, restricted to the fields `parse_diag`
sets; the remaining fields come from `..Default::default()` and stay at
their defaults, so they are omitted. -/
structure Diagnostic where
  range : Range
  severity : Option DiagnosticSeverity
  source : Option Str
  message : Str
deriving DecidableEq

/-- The literal `" error: "` from `rest.strip_prefix(" error: ")`. -/
def errorMarker : Str := (" error: ").data

/-- The literal `"originally used here"` from the severity heuristic. -/
def origHere : Str := ("originally used here").data

/-- The fixed source tag `"capnls"`. -/
def sourceTag : Str := ("capnls").data

/-- The record constructed at the end of `parse_diag` (source lines 66-85):
both positions share the line, severity is the message-suffix heuristic,
source is the fixed tag.  The `character: col.try_into().ok()?` in the
source converts `u32` to `u32` (`lsp_types::Position::character` is `u32`),
which is the identity and never fails, so it is not modelled as fallible. -/
def mkDiag (line colStart colEnd : Nat) (msg : Str) : Diagnostic :=
  { range := { start := { line := line, character := colStart }
             , end_ := { line := line, character := colEnd } }
  , severity := some (if endsWith origHere msg then .HINT else .ERROR)
  , source := some sourceTag
  , message := msg }

/-- Outcome of `parse_diag` on one line: `skip` models returning `None`
(the `?` early exits), `diag` models `Some(..)`, and `panicked` models the
`.unwrap()` panics on `lineno.parse::<u32>()` / column parsing. -/
inductive ParseOut where
  | panicked
  | skip
  | diag (d : Diagnostic)
deriving DecidableEq

/-- Shallow embedding of `parse_diag` (source lines 47-86).  The three
`split_once(':')?` calls, the `strip_prefix(" error: ")?`, the
`trim().trim_end_matches(".")`, the `parse::<u32>().unwrap()` calls with
`saturating_sub(1)` (truncated `Nat` subtraction), and the optional
`-`-separated column range are modelled one-for-one. -/
def parse_diag (diag : Str) : ParseOut :=
  match splitOnce ':' diag with
  | none => .skip
  | some (_, rest₁) =>
    match splitOnce ':' rest₁ with
    | none => .skip
    | some (lineno, rest₂) =>
      match splitOnce ':' rest₂ with
      | none => .skip
      | some (colno, rest₃) =>
        match stripPfx errorMarker rest₃ with
        | none => .skip
        | some raw =>
          -- the source binds `msg = raw.trim().trim_end_matches(".")` once
          -- here; it is written inline below (it is pure and used once per
          -- branch)
          match parseU32 lineno with
          | none => .panicked
          | some l =>
            match splitOnce '-' colno with
            | some (s, e) =>
              match parseU32 s, parseU32 e with
              | some cs, some ce =>
                .diag (mkDiag (l - 1) (cs - 1) (ce - 1) (trimEndDots (trim raw)))
              | _, _ => .panicked
            | none =>
              match parseU32 colno with
              | none => .panicked
              | some c =>
                .diag (mkDiag (l - 1) (c - 1) (c - 1) (trimEndDots (trim raw)))

/-- The diagnostic produced by one parse outcome, if any. -/
def diagOf : ParseOut → Option Diagnostic
  | .diag d => some d
  | _ => none

/-- The text after the third colon of a line, when three colon splits
succeed (the segments consumed by `parse_diag`'s first three
`split_once(':')?`). -/
def thirdRemainder (l : Str) : Option Str :=
  (splitOnce ':' l).bind fun p =>
    (splitOnce ':' p.2).bind fun q =>
      (splitOnce ':' q.2).map (fun r => r.2)

/-- Whether a line passes all the grammar checks of `parse_diag` that
precede any integer parsing: three colon splits plus the `" error: "`
prefix. -/
def matchesFrame (l : Str) : Bool :=
  match thirdRemainder l with
  | none => false
  | some r => (stripPfx errorMarker r).isSome

/-- Split on `'\n'` characters, keeping every (possibly empty) segment. -/
def splitNl : Str → List Str
  | [] => [[]]
  | c :: rest =>
    match splitNl rest with
    | [] => [[]]
    | l :: ls => if c = '\n' then [] :: l :: ls else (c :: l) :: ls

/-- Drop one trailing `'\r'`, used for segments that ended in `"\r\n"`. -/
def rstripCr (l : Str) : Str :=
  match l.getLast? with
  | some '\r' => l.dropLast
  | _ => l

/-- Models Rust `str::lines()`: lines end at `'\n'` or `"\r\n"` (the `'\r'`
of a `"\r\n"` ending is not part of the line), a final line ending is
optional, and a lone trailing `'\r'` with no following `'\n'` stays in the
last line. -/
def lines (s : Str) : List Str :=
  match (splitNl s).reverse with
  | [] => []
  | last :: revInit =>
    let init := (revInit.map rstripCr).reverse
    if last.isEmpty then init else init ++ [last]

/-- The `stderr.lines().filter_map(|l| parse_diag(l)).collect()` step
(source line 39), with panic propagation: if `parse_diag` panics on any
line, the whole collection panics (`none`); otherwise the records of the
successfully parsed lines, in input order. -/
def parseLines : List Str → Option (List Diagnostic)
  | [] => some []
  | l :: ls =>
    match parse_diag l with
    | .panicked => none
    | .skip => parseLines ls
    | .diag d => (parseLines ls).map (fun ds => d :: ds)

/-- Models `std::path::PathBuf`, reduced to the one observation the source
makes of it: `to_str()`, which is `none` for a non-unicode path. -/
structure FsPath where
  toStr : Option Str
deriving DecidableEq

/-- Models `lsp_types::Url`, reduced to the two observations the source
makes: `scheme()` and `to_file_path()` (`Err` modelled as `none`). -/
structure Url where
  scheme : Str
  toFilePath : Option FsPath

/-- Result of running the external process and decoding its stderr:
`spawnErr` models `cmd.output()` returning `Err`, `badUtf8` models
`std::str::from_utf8` failing on the stderr bytes, and `stderr s` models a
successfully captured and decoded stderr text. -/
inductive SpawnResult where
  | spawnErr
  | badUtf8
  | stderr (s : Str)

/-- The batch-fatal errors of `diags`, one per `bail!` / `?` site. -/
inductive DiagsError where
  | unsupportedScheme
  | badFilePath
  | nonUnicodePath
  | spawnFail
  | invalidUtf8
deriving DecidableEq

/-- Outcome of `diags`: a batch-fatal error, a panic propagated from
`parse_diag`, or the diagnostic list. -/
inductive DiagsOut where
  | err (e : DiagsError)
  | panicked
  | ok (ds : List Diagnostic)
deriving DecidableEq

/-- The program name `"capnp"` passed to `Command::new`. -/
def cmdName : Str := ("capnp").data

/-- The argument list built in `diags` (source lines 17-31): the fixed
`"compile"` subcommand, one `"-I"`-prefixed argument per search path whose
`to_str()` succeeds (in order; the `or_else` branch only logs and yields
`None`, so it is the plain `filter_map` of `to_str`), then the document
path. -/
def cmdArgs (protoPaths : List FsPath) (pathStr : Str) : List Str :=
  ("compile").data
    :: (protoPaths.filterMap FsPath.toStr).map (fun p => ("-I").data ++ p)
    ++ [pathStr]

/-- Shallow embedding of `diags` (source lines 4-42).  The subprocess and
the UTF-8 decoding of its stderr are modelled together by the `run`
parameter, invoked on the program name and argument list. -/
def diags (uri : Url) (protoPaths : List FsPath)
    (run : Str → List Str → SpawnResult) : DiagsOut :=
  if uri.scheme ≠ ("file").data then .err .unsupportedScheme
  else
    match uri.toFilePath with
    | none => .err .badFilePath
    | some path =>
      match path.toStr with
      | none => .err .nonUnicodePath
      | some pathStr =>
        match run cmdName (cmdArgs protoPaths pathStr) with
        | .spawnErr => .err .spawnFail
        | .badUtf8 => .err .invalidUtf8
        | .stderr s =>
          match parseLines (lines s) with
          | none => .panicked
          | some ds => .ok ds

/-- Whether a `diags` outcome is a batch-fatal error. -/
def isErr : DiagsOut → Bool
  | .err _ => true
  | _ => false

/-! ### Lemmas about the string primitives -/

theorem splitOnce_not_mem {c : Char} : ∀ {l : Str}, c ∉ l → splitOnce c l = none
  | [], _ => rfl
  | x :: xs, h => by
    have hx : ¬ x = c := fun e => h (e ▸ List.mem_cons_self x xs)
    have hm : c ∉ xs := fun m => h (List.mem_cons_of_mem x m)
    simp [splitOnce, hx, splitOnce_not_mem hm]

theorem splitOnce_append {c : Char} :
    ∀ {a : Str}, c ∉ a → ∀ (b : Str), splitOnce c (a ++ c :: b) = some (a, b)
  | [], _, b => by simp [splitOnce]
  | x :: xs, h, b => by
    have hx : ¬ x = c := fun e => h (e ▸ List.mem_cons_self x xs)
    have hm : c ∉ xs := fun m => h (List.mem_cons_of_mem x m)
    simp [splitOnce, hx, splitOnce_append hm b]

theorem splitOnce_eq {c : Char} :
    ∀ {l a b : Str}, splitOnce c l = some (a, b) → c ∉ a ∧ l = a ++ c :: b
  | [], a, b, h => by simp [splitOnce] at h
  | x :: xs, a, b, h => by
    by_cases hx : x = c
    · subst hx
      simp [splitOnce] at h
      obtain ⟨ha, hb⟩ := h
      subst ha; subst hb
      exact ⟨by simp, rfl⟩
    · simp only [splitOnce, if_neg hx] at h
      cases hsx : splitOnce c xs with
      | none => rw [hsx] at h; simp at h
      | some p =>
        rw [hsx] at h
        simp only [Option.map_some', Option.some.injEq, Prod.mk.injEq] at h
        obtain ⟨ha, hb⟩ := h
        obtain ⟨hmem, heq⟩ := splitOnce_eq hsx
        subst hb
        refine ⟨?_, ?_⟩
        · rw [← ha]
          intro hm
          rcases List.mem_cons.mp hm with h1 | h1
          · exact hx h1.symm
          · exact hmem h1
        · rw [← ha, heq]; rfl

theorem splitOnce_count {c : Char} {l a b : Str} (h : splitOnce c l = some (a, b)) :
    l.count c = b.count c + 1 := by
  obtain ⟨hmem, heq⟩ := splitOnce_eq h
  subst heq
  rw [List.count_append, List.count_cons_self, List.count_eq_zero.mpr hmem]
  omega

theorem stripPfx_append : ∀ (p s : Str), stripPfx p (p ++ s) = some s
  | [], s => rfl
  | x :: ps, s => by simp [stripPfx, stripPfx_append ps s]

theorem parseU32_mem {s : Str} {n : Nat} (h : parseU32 s = some n) :
    ∀ c ∈ s, c = '+' ∨ c.isDigit = true := by
  intro c hc
  simp only [parseU32] at h
  by_cases he : (stripPlus s).isEmpty
  · simp [he] at h
  · rw [if_neg he] at h
    by_cases hd : (stripPlus s).all Char.isDigit
    · have hall := List.all_eq_true.mp hd
      cases s with
      | nil => cases hc
      | cons a r =>
        by_cases ha : a = '+'
        · rcases List.mem_cons.mp hc with h1 | h1
          · left; rw [h1, ha]
          · right
            apply hall
            simpa [stripPlus, ha] using h1
        · right
          apply hall
          simpa [stripPlus, ha] using hc
    · rw [if_neg hd] at h
      exact absurd h (by simp)

theorem parseU32_not_colon {s : Str} {n : Nat} (h : parseU32 s = some n) : ':' ∉ s := by
  intro hm
  rcases parseU32_mem h ':' hm with h1 | h1
  · exact absurd h1 (by decide)
  · exact absurd h1 (by decide)

theorem parseU32_not_dash {s : Str} {n : Nat} (h : parseU32 s = some n) : '-' ∉ s := by
  intro hm
  rcases parseU32_mem h '-' hm with h1 | h1
  · exact absurd h1 (by decide)
  · exact absurd h1 (by decide)

/-! ### Lemmas about trimming -/

theorem dropWhile_head_not {p : Char → Bool} :
    ∀ {l : Str} {a : Char}, (l.dropWhile p).head? = some a → p a = false
  | [], a, h => by simp [List.dropWhile] at h
  | x :: xs, a, h => by
    by_cases hx : p x
    · rw [List.dropWhile_cons, if_pos hx] at h
      exact dropWhile_head_not h
    · rw [List.dropWhile_cons, if_neg hx] at h
      simp only [List.head?_cons, Option.some.injEq] at h
      rw [← h]
      exact Bool.eq_false_iff.mpr hx

theorem trimEndDots_getLast (s : Str) : (trimEndDots s).getLast? ≠ some '.' := by
  unfold trimEndDots
  rw [List.getLast?_reverse]
  intro h
  have hh := dropWhile_head_not h
  simp at hh

theorem dropWhile_cons_eq_self {p : Char → Bool} {x : Char} {xs : Str}
    (h : (x :: xs).dropWhile p = x :: xs) : p x = false := by
  by_contra hb
  rw [Bool.not_eq_false] at hb
  rw [List.dropWhile_cons, if_pos hb] at h
  have hle : (List.dropWhile p xs).length ≤ xs.length :=
    (List.dropWhile_suffix p).length_le
  have hlen := congrArg List.length h
  simp at hlen
  omega

theorem trimEnd_append {x : Str} {c : Char} (hc : c.isWhitespace = false) :
    trimEnd (x ++ [c]) = x ++ [c] := by
  unfold trimEnd
  rw [List.reverse_append]
  simp [List.dropWhile_cons, hc]

theorem trim_eq_parts {M : Str} (h : trim M = M) : trimStart M = M ∧ trimEnd M = M := by
  have h1 : (trimStart M).length ≤ M.length :=
    (List.dropWhile_suffix Char.isWhitespace).length_le
  have h2 : (trimEnd (trimStart M)).length ≤ (trimStart M).length := by
    unfold trimEnd
    calc ((trimStart M).reverse.dropWhile Char.isWhitespace).reverse.length
        = ((trimStart M).reverse.dropWhile Char.isWhitespace).length :=
          List.length_reverse _
      _ ≤ (trimStart M).reverse.length :=
          (List.dropWhile_suffix Char.isWhitespace).length_le
      _ = (trimStart M).length := List.length_reverse _
  have heq : (trim M).length = M.length := by rw [h]
  unfold trim at heq
  have hlen : (trimStart M).length = M.length := by omega
  have hsuf : List.IsSuffix (trimStart M) M := List.dropWhile_suffix _
  have hS : trimStart M = M := List.IsSuffix.eq_of_length hsuf hlen
  refine ⟨hS, ?_⟩
  have hT := h
  unfold trim at hT
  rw [hS] at hT
  exact hT

theorem trimStart_append_dot {M : Str} (hM : trimStart M = M) :
    trimStart (M ++ ['.']) = M ++ ['.'] := by
  cases M with
  | nil => decide
  | cons a as =>
    unfold trimStart at hM ⊢
    have ha : a.isWhitespace = false := dropWhile_cons_eq_self hM
    show List.dropWhile _ (a :: (as ++ ['.'])) = _
    rw [List.dropWhile_cons, if_neg (by simp [ha])]
    simp

theorem trim_append_dot {M : Str} (h : trim M = M) : trim (M ++ ['.']) = M ++ ['.'] := by
  obtain ⟨hS, hE⟩ := trim_eq_parts h
  unfold trim
  rw [trimStart_append_dot hS, trimEnd_append (by decide)]

theorem trimEndDots_append {M : Str} (h : M.getLast? ≠ some '.') :
    trimEndDots (M ++ ['.']) = M := by
  unfold trimEndDots
  rw [List.reverse_append]
  simp only [List.reverse_cons, List.reverse_nil, List.nil_append, List.singleton_append]
  rw [List.dropWhile_cons, if_pos (by decide)]
  have hd : M.reverse.dropWhile (fun c => c = '.') = M.reverse := by
    cases hM : M.reverse with
    | nil => rfl
    | cons a r =>
      have hla : M.getLast? = some a := by
        rw [← List.head?_reverse, hM]; rfl
      have ha : ¬ (a = '.') := fun e => h (e ▸ hla)
      rw [List.dropWhile_cons, if_neg (by simp [ha])]
  rw [hd, List.reverse_reverse]

/-! ### Structural lemmas about `parse_diag` -/

theorem parse_diag_single {Ls Cs : Str} {L C : Nat} (f tail : Str) (hf : ':' ∉ f)
    (hL : parseU32 Ls = some L) (hC : parseU32 Cs = some C) :
    parse_diag (f ++ ':' :: (Ls ++ ':' :: (Cs ++ ':' :: (errorMarker ++ tail))))
      = .diag (mkDiag (L - 1) (C - 1) (C - 1) (trimEndDots (trim tail))) := by
  have hLs : ':' ∉ Ls := parseU32_not_colon hL
  have hCs : ':' ∉ Cs := parseU32_not_colon hC
  have hCd : '-' ∉ Cs := parseU32_not_dash hC
  simp only [parse_diag, splitOnce_append hf, splitOnce_append hLs, splitOnce_append hCs,
    stripPfx_append, hL, hC, splitOnce_not_mem hCd]

theorem parse_diag_ranged {Ls C1s C2s : Str} {L C₁ C₂ : Nat} (f tail : Str) (hf : ':' ∉ f)
    (hL : parseU32 Ls = some L) (hC₁ : parseU32 C1s = some C₁) (hC₂ : parseU32 C2s = some C₂) :
    parse_diag (f ++ ':' :: (Ls ++ ':' :: ((C1s ++ '-' :: C2s) ++ ':' :: (errorMarker ++ tail))))
      = .diag (mkDiag (L - 1) (C₁ - 1) (C₂ - 1) (trimEndDots (trim tail))) := by
  have hLs : ':' ∉ Ls := parseU32_not_colon hL
  have hC1d : '-' ∉ C1s := parseU32_not_dash hC₁
  have hCs : ':' ∉ C1s ++ '-' :: C2s := by
    intro hm
    rcases List.mem_append.mp hm with h1 | h1
    · exact parseU32_not_colon hC₁ h1
    · rcases List.mem_cons.mp h1 with h2 | h2
      · exact absurd h2 (by decide)
      · exact parseU32_not_colon hC₂ h2
  simp only [parse_diag, splitOnce_append hf, splitOnce_append hLs, splitOnce_append hCs,
    stripPfx_append, hL, hC₁, hC₂, splitOnce_append hC1d]

theorem parse_diag_shape {l : Str} {d : Diagnostic} (h : parse_diag l = .diag d) :
    ∃ ln cs ce raw, d = mkDiag ln cs ce (trimEndDots (trim raw)) := by
  unfold parse_diag at h
  repeat' split at h
  all_goals cases h
  all_goals exact ⟨_, _, _, _, rfl⟩

theorem frame_false_skip {l : Str} (h : matchesFrame l = false) : parse_diag l = .skip := by
  unfold matchesFrame thirdRemainder at h
  cases h1 : splitOnce ':' l with
  | none => simp [parse_diag, h1]
  | some p =>
    obtain ⟨p1, p2⟩ := p
    cases h2 : splitOnce ':' p2 with
    | none => simp [parse_diag, h1, h2]
    | some q =>
      obtain ⟨q1, q2⟩ := q
      cases h3 : splitOnce ':' q2 with
      | none => simp [parse_diag, h1, h2, h3]
      | some r =>
        obtain ⟨r1, r2⟩ := r
        simp only [h1, h2, h3, Option.some_bind, Option.map_some'] at h
        cases h4 : stripPfx errorMarker r2 with
        | none => simp [parse_diag, h1, h2, h3, h4]
        | some m => rw [h4] at h; simp at h

/-! ### Lemmas about `parseLines` -/

theorem diagOf_skip : diagOf .skip = none := rfl

theorem diagOf_panicked : diagOf .panicked = none := rfl

theorem diagOf_diag (d : Diagnostic) : diagOf (.diag d) = some d := rfl

theorem parseLines_skip {x : Str} (hx : parse_diag x = .skip) :
    ∀ (pre post : List Str), parseLines (pre ++ x :: post) = parseLines (pre ++ post)
  | [], post => by simp [parseLines, hx]
  | p :: pre, post => by
    cases hp : parse_diag p <;>
      simp [parseLines, hp, parseLines_skip hx pre post]

theorem parseLines_filterMap :
    ∀ {ls : List Str} {out : List Diagnostic}, parseLines ls = some out →
      out = ls.filterMap (fun l => diagOf (parse_diag l))
  | [], out, h => by
    simp only [parseLines, Option.some.injEq] at h
    simp [← h]
  | l :: ls, out, h => by
    cases hl : parse_diag l with
    | panicked => rw [parseLines, hl] at h; exact absurd h (by simp)
    | skip =>
      rw [parseLines, hl] at h
      simp only [List.filterMap_cons, hl, diagOf_skip]
      exact parseLines_filterMap h
    | diag d =>
      rw [parseLines, hl] at h
      cases hls : parseLines ls with
      | none => rw [hls] at h; simp at h
      | some ds =>
        rw [hls] at h
        simp only [Option.map_some', Option.some.injEq] at h
        rw [← h]
        simp only [List.filterMap_cons, hl, diagOf_diag]
        rw [← parseLines_filterMap hls]

theorem filterMap_map_some_sublist (f : Str → Option Diagnostic) :
    ∀ ls : List Str, List.Sublist ((ls.filterMap f).map some) (ls.map f)
  | [] => by simp
  | l :: ls => by
    cases hl : f l with
    | none =>
      simp only [List.filterMap_cons, hl, List.map_cons]
      exact List.Sublist.cons _ (filterMap_map_some_sublist f ls)
    | some d =>
      simp only [List.filterMap_cons, hl, List.map_cons]
      exact List.Sublist.cons₂ _ (filterMap_map_some_sublist f ls)

/-! ### A lemma about the command construction -/

theorem filter_isSome_filterMap (pp : List FsPath) :
    (pp.filter (fun q => q.toStr.isSome)).filterMap FsPath.toStr
      = pp.filterMap FsPath.toStr := by
  induction pp with
  | nil => rfl
  | cons p ps ih =>
    cases hp : p.toStr with
    | none => simp [List.filter_cons, List.filterMap_cons, hp, ih]
    | some s => simp [List.filter_cons, List.filterMap_cons, hp, ih]

/-- Sanity check mirroring the source's `test_parse_diag` unit test. -/
theorem parse_diag_matches_unit_test :
    parse_diag (("foo.capnp:32:9: error: Parse error.").data)
      = .diag (mkDiag 31 8 8 (("Parse error").data)) := by
  decide

/-! ### Claim theorems -/

/-- C1 (amended): a line that fails the colon-split / `" error: "`-prefix
grammar checks is silently skipped by `parse_diag` and never panics; but a
line that passes those checks and whose line-number or column text is
non-numeric or out of `u32` range makes `parse_diag` panic (aborting the
whole batch) instead of being skipped. -/
theorem claim_parse_diag_totality (l : Str) :
    (matchesFrame l = false → parse_diag l = ParseOut.skip)
    ∧ (parse_diag l = ParseOut.panicked → matchesFrame l = true) := by
  refine ⟨fun h => frame_false_skip h, fun hp => ?_⟩
  cases hB : matchesFrame l
  · rw [frame_false_skip hB] at hp
    exact absurd hp (by simp)
  · rfl

/-- C1 counterexample: the line `"f:x:1: error: m."` matches the colon /
severity grammar but has a non-numeric line number; `parse_diag` panics on
it (models `lineno.parse::<u32>().unwrap()`) instead of silently skipping
it as the claim states. -/
theorem claim_parse_diag_totality_cex :
    parse_diag (("f:x:1: error: m.").data) = ParseOut.panicked
    ∧ parse_diag (("f:x:1: error: m.").data) ≠ ParseOut.skip := by
  exact ⟨by decide, by decide⟩

/-- C1 witness: a plain summary line (no colons) is silently skipped. -/
theorem claim_parse_diag_totality_witness :
    parse_diag (("error summary").data) = ParseOut.skip :=
  (claim_parse_diag_totality (("error summary").data)).1 (by decide)

/-- C2 (amended): for every matched line the message is the remainder
after the `" error: "` prefix, trimmed of surrounding whitespace and with
ALL trailing periods removed (not just one): the emitted message never
ends in a period. -/
theorem claim_message_strips_all_periods :
    (∀ (f Ls Cs M : Str) (L C : Nat), ':' ∉ f → parseU32 Ls = some L → parseU32 Cs = some C →
        parse_diag (f ++ ':' :: (Ls ++ ':' :: (Cs ++ ':' :: (errorMarker ++ M))))
          = .diag (mkDiag (L - 1) (C - 1) (C - 1) (trimEndDots (trim M))))
    ∧ (∀ (l : Str) (d : Diagnostic), parse_diag l = .diag d →
        d.message.getLast? ≠ some '.') := by
  constructor
  · intro f Ls Cs M L C hf hL hC
    exact parse_diag_single f M hf hL hC
  · intro l d h
    obtain ⟨ln, cs, ce, raw, rfl⟩ := parse_diag_shape h
    exact trimEndDots_getLast (trim raw)

/-- C2 counterexample: on `"f:1:1: error: Wait..."` the remainder after
the prefix is `"Wait..."`; removing exactly one trailing period would give
`"Wait.."`, but the code (`trim_end_matches(".")`) removes all of them and
emits `"Wait"`. -/
theorem claim_message_strips_all_periods_cex :
    parse_diag (("f:1:1: error: Wait...").data) = .diag (mkDiag 0 0 0 (("Wait").data))
    ∧ (("Wait").data : Str) ≠ ("Wait..").data := by
  exact ⟨by decide, by decide⟩

/-- C2 witness: a concrete matched line with several trailing periods. -/
theorem claim_message_strips_all_periods_witness :
    parse_diag (("f").data ++ ':' :: (("1").data ++ ':' ::
        (("2").data ++ ':' :: (errorMarker ++ ("Hi...").data))))
      = .diag (mkDiag 0 1 1 (trimEndDots (trim (("Hi...").data)))) :=
  claim_message_strips_all_periods.1 (("f").data) (("1").data) (("2").data)
    (("Hi...").data) 1 2 (by decide) (by decide) (by decide)

/-- C3: a parsed record is classified `HINT` exactly when its (trimmed,
period-stripped) message ends with `"originally used here"`; every other
matched message is classified `ERROR`, and no other severity is ever
produced. -/
theorem claim_severity_classification :
    ∀ (l : Str) (d : Diagnostic), parse_diag l = .diag d →
      (d.severity = some DiagnosticSeverity.HINT ↔ endsWith origHere d.message = true)
      ∧ (d.severity = some DiagnosticSeverity.HINT
          ∨ d.severity = some DiagnosticSeverity.ERROR) := by
  intro l d h
  obtain ⟨ln, cs, ce, raw, rfl⟩ := parse_diag_shape h
  by_cases he : endsWith origHere (trimEndDots (trim raw)) = true
  · simp [mkDiag, he]
  · simp [mkDiag, he]

/-- C3 witness: the hint line of the source's own test schema. -/
theorem claim_severity_classification_witness :
    ((mkDiag 2 3 4 (("Ordinal @0 originally used here").data)).severity
        = some DiagnosticSeverity.HINT
      ↔ endsWith origHere (mkDiag 2 3 4 (("Ordinal @0 originally used here").data)).message
        = true)
    ∧ ((mkDiag 2 3 4 (("Ordinal @0 originally used here").data)).severity
        = some DiagnosticSeverity.HINT
      ∨ (mkDiag 2 3 4 (("Ordinal @0 originally used here").data)).severity
        = some DiagnosticSeverity.ERROR) :=
  claim_severity_classification
    (("foo.capnp:3:4-5: error: Ordinal @0 originally used here.").data) _ (by decide)

/-- C4: a valid single-column line `f:L:C: error: M.` parses to a record
whose start and end positions both equal `(L-1, C-1)` with message `M`,
and a valid ranged line `f:L:C1-C2: error: M.` parses to start column
`C1-1` and end column `C2-1`, both on line `L-1` (here `M` is assumed
already trimmed and not period-terminated, as in the spec's grammar). -/
theorem claim_position_conversion :
    (∀ (f Ls Cs M : Str) (L C : Nat), ':' ∉ f → parseU32 Ls = some L → parseU32 Cs = some C →
        trim M = M → M.getLast? ≠ some '.' →
        parse_diag (f ++ ':' :: (Ls ++ ':' :: (Cs ++ ':' :: (errorMarker ++ (M ++ ['.'])))))
          = .diag (mkDiag (L - 1) (C - 1) (C - 1) M))
    ∧ (∀ (f Ls C1s C2s M : Str) (L C₁ C₂ : Nat), ':' ∉ f → parseU32 Ls = some L →
        parseU32 C1s = some C₁ → parseU32 C2s = some C₂ →
        trim M = M → M.getLast? ≠ some '.' →
        parse_diag (f ++ ':' :: (Ls ++ ':' ::
            ((C1s ++ '-' :: C2s) ++ ':' :: (errorMarker ++ (M ++ ['.'])))))
          = .diag (mkDiag (L - 1) (C₁ - 1) (C₂ - 1) M)) := by
  constructor
  · intro f Ls Cs M L C hf hL hC htrim hlast
    rw [parse_diag_single f (M ++ ['.']) hf hL hC, trim_append_dot htrim,
      trimEndDots_append hlast]
  · intro f Ls C1s C2s M L C₁ C₂ hf hL hC₁ hC₂ htrim hlast
    rw [parse_diag_ranged f (M ++ ['.']) hf hL hC₁ hC₂, trim_append_dot htrim,
      trimEndDots_append hlast]

/-- C4 witness: the single-column line of the source's unit test and a
concrete ranged line. -/
theorem claim_position_conversion_witness :
    parse_diag (("foo.capnp").data ++ ':' :: (("32").data ++ ':' ::
        (("9").data ++ ':' :: (errorMarker ++ ((("Parse error").data) ++ ['.'])))))
      = .diag (mkDiag 31 8 8 (("Parse error").data))
    ∧ parse_diag (("foo.capnp").data ++ ':' :: (("4").data ++ ':' ::
        (((("4").data ++ '-' :: ("5").data)) ++ ':' ::
          (errorMarker ++ ((("Duplicate").data) ++ ['.'])))))
      = .diag (mkDiag 3 3 4 (("Duplicate").data)) :=
  ⟨claim_position_conversion.1 (("foo.capnp").data) (("32").data) (("9").data)
      (("Parse error").data) 32 9 (by decide) (by decide) (by decide) (by decide) (by decide),
   claim_position_conversion.2 (("foo.capnp").data) (("4").data) (("4").data) (("5").data)
      (("Duplicate").data) 4 4 5 (by decide) (by decide) (by decide) (by decide) (by decide)
      (by decide)⟩

/-- C5: the 1-indexed to 0-indexed conversion is subtraction by one
saturating at zero.  Machine `u32` values are modelled by `Nat`, where
`saturating_sub(1)` is truncated subtraction `· - 1`, which never
underflows: input values 0 and 1 both map to output 0. -/
theorem claim_saturating_conversion :
    ∀ (f Ls Cs M : Str) (L C : Nat), ':' ∉ f → parseU32 Ls = some L → parseU32 Cs = some C →
      parse_diag (f ++ ':' :: (Ls ++ ':' :: (Cs ++ ':' :: (errorMarker ++ M))))
        = .diag (mkDiag (L - 1) (C - 1) (C - 1) (trimEndDots (trim M)))
      ∧ (L ≤ 1 → L - 1 = 0) ∧ (C ≤ 1 → C - 1 = 0) := by
  intro f Ls Cs M L C hf hL hC
  exact ⟨parse_diag_single f M hf hL hC, fun h => by omega, fun h => by omega⟩

/-- C5 witness: input line number 0 and column 1 both produce position 0. -/
theorem claim_saturating_conversion_witness :
    parse_diag (("f").data ++ ':' :: (("0").data ++ ':' ::
        (("1").data ++ ':' :: (errorMarker ++ ("m.").data))))
      = .diag (mkDiag 0 0 0 (trimEndDots (trim (("m.").data))))
    ∧ ((0 : Nat) ≤ 1 → 0 - 1 = 0) ∧ ((1 : Nat) ≤ 1 → 1 - 1 = 0) :=
  claim_saturating_conversion (("f").data) (("0").data) (("1").data) (("m.").data) 0 1
    (by decide) (by decide) (by decide)

/-- C6: a line with fewer than three colons, or whose text after the third
colon lacks the exact `" error: "` marker, produces no record, and
removing such a line from the input leaves the parse of all other lines
unchanged. -/
theorem claim_nonmatching_lines_skipped :
    ∀ (l : Str) (pre post : List Str),
      (l.count ':' < 3 → parse_diag l = ParseOut.skip)
      ∧ ((∀ r, thirdRemainder l = some r → stripPfx errorMarker r = none) →
          parse_diag l = ParseOut.skip)
      ∧ (parse_diag l = ParseOut.skip →
          parseLines (pre ++ l :: post) = parseLines (pre ++ post)) := by
  intro l pre post
  refine ⟨?_, ?_, fun h => parseLines_skip h pre post⟩
  · intro hcnt
    cases h1 : splitOnce ':' l with
    | none => simp [parse_diag, h1]
    | some p =>
      obtain ⟨a1, b1⟩ := p
      have c1 := splitOnce_count h1
      cases h2 : splitOnce ':' b1 with
      | none => simp [parse_diag, h1, h2]
      | some q =>
        obtain ⟨a2, b2⟩ := q
        have c2 := splitOnce_count h2
        cases h3 : splitOnce ':' b2 with
        | none => simp [parse_diag, h1, h2, h3]
        | some r =>
          obtain ⟨a3, b3⟩ := r
          have c3 := splitOnce_count h3
          omega
  · intro hp
    cases h1 : splitOnce ':' l with
    | none => simp [parse_diag, h1]
    | some p =>
      obtain ⟨a1, b1⟩ := p
      cases h2 : splitOnce ':' b1 with
      | none => simp [parse_diag, h1, h2]
      | some q =>
        obtain ⟨a2, b2⟩ := q
        cases h3 : splitOnce ':' b2 with
        | none => simp [parse_diag, h1, h2, h3]
        | some r =>
          obtain ⟨a3, b3⟩ := r
          have hr : thirdRemainder l = some b3 := by
            simp [thirdRemainder, h1, h2, h3]
          have h4 := hp b3 hr
          simp [parse_diag, h1, h2, h3, h4]

/-- C6 witness: a colon-free line is skipped, and a `warning:` line in the
middle of a batch contributes nothing while its neighbours still parse. -/
theorem claim_nonmatching_lines_skipped_witness :
    parse_diag (("no colons here").data) = ParseOut.skip
    ∧ parseLines ([("x").data] ++ ("f:1:2: warning: m.").data :: [("y").data])
        = parseLines ([("x").data] ++ [("y").data]) :=
  ⟨(claim_nonmatching_lines_skipped (("no colons here").data) [] []).1 (by decide),
   (claim_nonmatching_lines_skipped (("f:1:2: warning: m.").data)
      [("x").data] [("y").data]).2.2 (by decide)⟩

/-- C9: whenever the per-line parse completes (no line panics), the output
is exactly the sequence of successfully parsed lines in input line order:
it equals the order-preserving `filterMap` of the lines, and embeds into
the per-line parse results as an order-preserving sublist. -/
theorem claim_output_order :
    ∀ (s : Str) (out : List Diagnostic), parseLines (lines s) = some out →
      out = (lines s).filterMap (fun l => diagOf (parse_diag l))
      ∧ List.Sublist (out.map some) ((lines s).map (fun l => diagOf (parse_diag l))) := by
  intro s out h
  refine ⟨parseLines_filterMap h, ?_⟩
  rw [parseLines_filterMap h]
  exact filterMap_map_some_sublist _ _

/-- C9 witness: a two-line stderr text whose second line is noise. -/
theorem claim_output_order_witness :
    [mkDiag 0 1 1 (("a").data)]
        = (lines (("f:1:2: error: a.\nnoise").data)).filterMap (fun l => diagOf (parse_diag l))
    ∧ List.Sublist ([mkDiag 0 1 1 (("a").data)].map some)
        ((lines (("f:1:2: error: a.\nnoise").data)).map (fun l => diagOf (parse_diag l))) :=
  claim_output_order (("f:1:2: error: a.\nnoise").data) [mkDiag 0 1 1 (("a").data)]
    (by decide)

/-- C10: every record `parse_diag` emits starts and ends on the same line,
has a populated severity, and carries the exact source tag `"capnls"`. -/
theorem claim_record_invariants :
    ∀ (l : Str) (d : Diagnostic), parse_diag l = .diag d →
      d.range.start.line = d.range.end_.line
      ∧ d.severity.isSome = true
      ∧ d.source = some (("capnls").data) := by
  intro l d h
  obtain ⟨ln, cs, ce, raw, rfl⟩ := parse_diag_shape h
  exact ⟨rfl, rfl, rfl⟩

/-- C10 witness: the record of the source's unit-test line. -/
theorem claim_record_invariants_witness :
    (mkDiag 31 8 8 (("Parse error").data)).range.start.line
        = (mkDiag 31 8 8 (("Parse error").data)).range.end_.line
    ∧ (mkDiag 31 8 8 (("Parse error").data)).severity.isSome = true
    ∧ (mkDiag 31 8 8 (("Parse error").data)).source = some (("capnls").data) :=
  claim_record_invariants (("foo.capnp:32:9: error: Parse error.").data) _ (by decide)

/-- C7: `diags` returns a batch-fatal error exactly for: a non-`file`
scheme (in which case the result is the same for every `run`, i.e. no
subprocess observation occurs), a failing `to_file_path`, a
non-text-representable path, a spawn failure, or undecodable stderr; when
the subprocess runs and its stderr decodes, the result is never an error
(the two "path not representable" sites of the source are its
`to_file_path` and `to_str` failures). -/
theorem claim_batch_failure_modes :
    ∀ (uri : Url) (pp : List FsPath) (run run' : Str → List Str → SpawnResult),
      (uri.scheme ≠ ("file").data →
          diags uri pp run = .err .unsupportedScheme
          ∧ diags uri pp run = diags uri pp run')
      ∧ (uri.scheme = ("file").data → uri.toFilePath = none →
          diags uri pp run = .err .badFilePath)
      ∧ (∀ p, uri.scheme = ("file").data → uri.toFilePath = some p → p.toStr = none →
          diags uri pp run = .err .nonUnicodePath)
      ∧ (∀ p ps, uri.scheme = ("file").data → uri.toFilePath = some p → p.toStr = some ps →
          ((run cmdName (cmdArgs pp ps) = .spawnErr ↔ diags uri pp run = .err .spawnFail)
           ∧ (run cmdName (cmdArgs pp ps) = .badUtf8 ↔ diags uri pp run = .err .invalidUtf8)
           ∧ (∀ s, run cmdName (cmdArgs pp ps) = .stderr s →
               isErr (diags uri pp run) = false))) := by
  intro uri pp run run'
  refine ⟨?_, ?_, ?_, ?_⟩
  · intro hs
    constructor <;> simp [diags, hs]
  · intro hs hfp
    simp [diags, hs, hfp]
  · intro p hs hfp hps
    simp [diags, hs, hfp, hps]
  · intro p ps hs hfp hps
    refine ⟨?_, ?_, ?_⟩
    · constructor
      · intro hr
        simp [diags, hs, hfp, hps, hr]
      · intro hd
        cases hr : run cmdName (cmdArgs pp ps) with
        | spawnErr => rfl
        | badUtf8 => simp [diags, hs, hfp, hps, hr] at hd
        | stderr s =>
          simp [diags, hs, hfp, hps, hr] at hd
          cases hpl : parseLines (lines s) with
          | none => rw [hpl] at hd; simp at hd
          | some ds => rw [hpl] at hd; simp at hd
    · constructor
      · intro hr
        simp [diags, hs, hfp, hps, hr]
      · intro hd
        cases hr : run cmdName (cmdArgs pp ps) with
        | badUtf8 => rfl
        | spawnErr => simp [diags, hs, hfp, hps, hr] at hd
        | stderr s =>
          simp [diags, hs, hfp, hps, hr] at hd
          cases hpl : parseLines (lines s) with
          | none => rw [hpl] at hd; simp at hd
          | some ds => rw [hpl] at hd; simp at hd
    · intro s hr
      have hd : diags uri pp run
          = (match parseLines (lines s) with
              | none => DiagsOut.panicked
              | some ds => DiagsOut.ok ds) := by
        simp [diags, hs, hfp, hps, hr]
      rw [hd]
      cases hpl : parseLines (lines s) with
      | none => rfl
      | some ds => rfl

/-- C7 witness: a non-local scheme fails with the unsupported-scheme error
before any subprocess observation. -/
theorem claim_batch_failure_modes_witness :
    diags ⟨("http").data, none⟩ [] (fun _ _ => SpawnResult.spawnErr)
      = DiagsOut.err DiagsError.unsupportedScheme :=
  ((claim_batch_failure_modes ⟨("http").data, none⟩ []
      (fun _ _ => SpawnResult.spawnErr) (fun _ _ => SpawnResult.spawnErr)).1 (by decide)).1

/-- C8: the constructed command line is exactly the fixed `"compile"`
subcommand, one `"-I"`-prefixed argument per text-representable search
path in order, then the document path (on the fixed `"capnp"` program);
`diags` observes `run` only at that exact command, and dropping the
non-representable search-path entries changes nothing (they are skipped,
never an error). -/
theorem claim_command_construction :
    ∀ (uri : Url) (pp : List FsPath) (run run' : Str → List Str → SpawnResult)
      (p : FsPath) (ps : Str),
      uri.scheme = ("file").data → uri.toFilePath = some p → p.toStr = some ps →
      run cmdName (cmdArgs pp ps) = run' cmdName (cmdArgs pp ps) →
      (cmdArgs pp ps
          = ("compile").data
              :: ((pp.filterMap FsPath.toStr).map (fun q => ("-I").data ++ q) ++ [ps]))
      ∧ diags uri pp run = diags uri pp run'
      ∧ diags uri pp run = diags uri (pp.filter (fun q => q.toStr.isSome)) run := by
  intro uri pp run run' p ps hs hfp hps hrun
  refine ⟨rfl, ?_, ?_⟩
  · simp [diags, hs, hfp, hps, hrun]
  · have hcmd : cmdArgs (pp.filter (fun q => q.toStr.isSome)) ps = cmdArgs pp ps := by
      unfold cmdArgs
      rw [filter_isSome_filterMap]
    simp [diags, hs, hfp, hps, hcmd]

/-- C8 witness: one representable and one non-representable include path;
the command is `compile -I/inc /a.capnp`. -/
theorem claim_command_construction_witness :
    cmdArgs [⟨some (("/inc").data)⟩, ⟨none⟩] (("/a.capnp").data)
      = ("compile").data
          :: (([(⟨some (("/inc").data)⟩ : FsPath), ⟨none⟩].filterMap FsPath.toStr).map
                (fun q => ("-I").data ++ q) ++ [("/a.capnp").data]) :=
  (claim_command_construction ⟨("file").data, some ⟨some (("/a.capnp").data)⟩⟩
    [⟨some (("/inc").data)⟩, ⟨none⟩]
    (fun _ _ => SpawnResult.stderr []) (fun _ _ => SpawnResult.stderr [])
    ⟨some (("/a.capnp").data)⟩ (("/a.capnp").data)
    rfl rfl rfl rfl).1

end Capnls
